import Mathlib

/-!
# Verification of the `toml_parse` core (lexer, event parser, content validators)

This file is a shallow embedding, in Lean 4, of the core of the
`toml_parse` crate: the byte-level lexer (`src/crates/toml_parse/src/lexer/mod.rs`),
the token-to-event parser (`src/crates/toml_parse/src/parser/event.rs`) and the
content validators (`src/crates/toml_parse/src/parser/strings.rs`,
`key.rs`, `trivia.rs`, `mod.rs`).

Modelling conventions:

* The input is a byte string, modelled as `List Nat` (each element a byte value).
* `Raw` values (zero-copy slices of the input) are modelled by their byte
  content as `List Nat`.  `Raw::append`, which in Rust produces the slice
  spanning from the start of the first raw to the end of the second, is
  modelled by list concatenation; for the event raws built by the parser the
  two arguments are always adjacent slices, where the span equals the
  concatenation.  (For a few diagnostic *context* spans the Rust span also
  covers bytes between non-adjacent raws; no theorem below inspects those
  context fields.)
* Static Rust strings (`description`, `Expected`) are modelled as `String`.
* Loops whose termination is by progress through the input are given an
  explicit fuel argument; call sites pass a fuel that is a proved (or obvious)
  upper bound on the number of iterations, so the fueled function agrees with
  the Rust loop.
* `Cow<'_, str>` is modelled by `CowStr` with constructors `borrowed` and
  `owned`; `Cow::to_mut` always produces the `owned` form, as in Rust.
-/

namespace Toml

/-! ## Tokens (`lexer/token.rs`) -/

/-- Token kinds, from `TokenKind` in `lexer/token.rs`. -/
inductive TokenKind where
  | Dot
  | Equals
  | Comma
  | LeftSquareBracket
  | RightSquareBracket
  | LeftCurlyBracket
  | RightCurlyBracket
  | Whitespace
  | Comment
  | Newline
  | LiteralString
  | BasicString
  | MlLiteralString
  | MlBasicString
  | Atom
deriving DecidableEq, Repr

/-- A token: kind plus the raw bytes of its lexeme (`Token` in `lexer/token.rs`). -/
structure Token where
  kind : TokenKind
  raw : List Nat
deriving DecidableEq, Repr

/-! ## Lexer (`lexer/mod.rs`)

Each `lex_*` function mirrors the Rust function of the same name.  The Rust
code computes a byte `offset` and takes `next_slice(offset)`; here each
function computes the same offset `off` and returns
`(Token.mk kind (stream.take off), stream.drop off)`. -/

/-- The `wschar =  %x20 / %x09` (`WSCHAR` in `lexer/mod.rs`). -/
def wscharB (b : Nat) : Bool :=
  decide (b = 32 ∨ b = 9)

/-- Process an ASCII character token (`lex_ascii_char`): `offset = 1`. -/
def lex_ascii_char (kind : TokenKind) (stream : List Nat) : Token × List Nat :=
  (Token.mk kind (stream.take 1), stream.drop 1)

/-- Process whitespace (`lex_whitespace`): the offset is the first index whose
byte is not a `wschar`, i.e. the length of the leading `wschar` run. -/
def lex_whitespace (stream : List Nat) : Token × List Nat :=
  let off := (stream.takeWhile wscharB).length
  (Token.mk TokenKind.Whitespace (stream.take off), stream.drop off)

/-- Process a comment (`lex_comment`): one byte for `#`, then up to (but not
including) the next `\r` or `\n` (or EOF). -/
def lex_comment (stream : List Nat) : Token × List Nat :=
  let off := 1 + ((stream.drop 1).takeWhile (fun b => decide (¬ (b = 13 ∨ b = 10)))).length
  (Token.mk TokenKind.Comment (stream.take off), stream.drop off)

/-- Process a newline starting with `\r` (`lex_crlf`): absorb a following `\n`
if present. -/
def lex_crlf (stream : List Nat) : Token × List Nat :=
  let off := if stream.get? 1 = some 10 then 2 else 1
  (Token.mk TokenKind.Newline (stream.take off), stream.drop off)

/-- Scan of a single-line literal string body: the Rust code uses
`find_slice((APOSTROPHE, b'\n'))` and takes `span.end` when the found byte is
`'` (include the close quote) and `span.start` when it is `\n`; `None` means
scan to EOF.  This function returns that offset contribution. -/
def find_stop_literal : List Nat → Nat
  | [] => 0
  | b :: t =>
    if b = 39 then 1
    else if b = 10 then 0
    else 1 + find_stop_literal t

/-- Process a literal string (`lex_literal_string`). -/
def lex_literal_string (stream : List Nat) : Token × List Nat :=
  let off := 1 + find_stop_literal (stream.drop 1)
  (Token.mk TokenKind.LiteralString (stream.take off), stream.drop off)

/-- Scan for the multi-line literal delimiter: `find_slice("'''")` with
`span.end` on success, EOF otherwise. -/
def find_ml_literal : List Nat → Nat
  | 39 :: 39 :: 39 :: _ => 3
  | _ :: t => 1 + find_ml_literal t
  | [] => 0

/-- Consume up to two further copies of byte `q` (the two trailing
`if stream.get(offset) == Some(&q) { offset += 1 }` checks). -/
def extra_quotes (q : Nat) : List Nat → Nat
  | b1 :: b2 :: _ => if b1 = q then (if b2 = q then 2 else 1) else 0
  | [b1] => if b1 = q then 1 else 0
  | [] => 0

/-- Process a multi-line literal string (`lex_ml_literal_string`). -/
def lex_ml_literal_string (stream : List Nat) : Token × List Nat :=
  let body := stream.drop 3
  let k := find_ml_literal body
  let off := 3 + k + extra_quotes 39 (body.drop k)
  (Token.mk TokenKind.MlLiteralString (stream.take off), stream.drop off)

/-- Scan of a basic string body: `find_slice((QUOTATION_MARK, ESCAPE, b'\n'))`
with `span.end` when the found byte is `"` and `span.start` otherwise; EOF if
none found. -/
def find_stop_basic : List Nat → Nat
  | [] => 0
  | b :: t =>
    if b = 34 then 1
    else if b = 92 ∨ b = 10 then 0
    else 1 + find_stop_basic t

/-- The escape loop shared by `lex_basic_string` and `lex_ml_basic_string`:
`while stream.get(offset) == Some(&ESCAPE)` consume the `\`, then one more
byte if it is `\` or `"`, then scan with `find_stop_basic` again.  Each
iteration consumes at least one byte, so fuel equal to the length of the
remaining stream is sufficient. -/
def lex_basic_escape_loop : Nat → List Nat → Nat
  | fuel + 1, 92 :: t =>
    let e := match t with
      | 92 :: _ => 1
      | 34 :: _ => 1
      | _ => 0
    let t1 := t.drop e
    let k := find_stop_basic t1
    1 + e + k + lex_basic_escape_loop fuel (t1.drop k)
  | _, _ => 0

/-- Process a basic string (`lex_basic_string`). -/
def lex_basic_string (stream : List Nat) : Token × List Nat :=
  let k := find_stop_basic (stream.drop 1)
  let rest := (stream.drop 1).drop k
  let off := 1 + k + lex_basic_escape_loop rest.length rest
  (Token.mk TokenKind.BasicString (stream.take off), stream.drop off)

/-- Scan for the multi-line basic delimiter or an escape:
`find_slice((ML_BASIC_STRING_DELIM, "\\"))`; the result reports the index of
the first match and whether it was the `"""` delimiter. -/
def find_mlb : List Nat → Option (Nat × Bool)
  | 34 :: 34 :: 34 :: _ => some (0, true)
  | 92 :: _ => some (0, false)
  | _ :: t => (find_mlb t).map (fun p => (p.1 + 1, p.2))
  | [] => none

/-- Offset contribution of the initial multi-line-basic scan: `span.end` when
the match is the delimiter (first byte `"`), `span.start` when it is `\`, EOF
when there is no match. -/
def find_ml_basic (l : List Nat) : Nat :=
  match find_mlb l with
  | none => l.length
  | some (i, true) => i + 3
  | some (i, false) => i

/-- Process a multi-line basic string (`lex_ml_basic_string`): initial scan to
`"""` or `\`, then the shared escape loop, then up to two extra `"`. -/
def lex_ml_basic_string (stream : List Nat) : Token × List Nat :=
  let body := stream.drop 3
  let k := find_ml_basic body
  let rest := body.drop k
  let e := lex_basic_escape_loop rest.length rest
  let off := 3 + k + e + extra_quotes 34 (rest.drop e)
  (Token.mk TokenKind.MlBasicString (stream.take off), stream.drop off)

/-- The `TOKEN_START` in `lex_atom`: `b".=,[]{} \t#\r\n)'\""`. -/
def token_start_byte (b : Nat) : Bool :=
  decide (b = 46 ∨ b = 61 ∨ b = 44 ∨ b = 91 ∨ b = 93 ∨ b = 123 ∨ b = 125 ∨
    b = 32 ∨ b = 9 ∨ b = 35 ∨ b = 13 ∨ b = 10 ∨ b = 41 ∨ b = 39 ∨ b = 34)

/-- Process an atom (`lex_atom`): greedy run of bytes until the next byte in
`TOKEN_START` (or EOF).  Note that when the first byte itself is in
`TOKEN_START` the offset is `0` and the returned token is empty. -/
def lex_atom (stream : List Nat) : Token × List Nat :=
  let off := (stream.takeWhile (fun b => ! token_start_byte b)).length
  (Token.mk TokenKind.Atom (stream.take off), stream.drop off)

/-- One step of the lexer iterator (`<Lexer as Iterator>::next`): dispatch on
the first byte; `'` and `"` check for the three-byte delimiters
(`stream.compare(...)` succeeding exactly when the stream starts with them). -/
def Lexer.next (stream : List Nat) : Option (Token × List Nat) :=
  match stream with
  | [] => none
  | b :: _ =>
    some <|
      if b = 46 then lex_ascii_char TokenKind.Dot stream
      else if b = 61 then lex_ascii_char TokenKind.Equals stream
      else if b = 44 then lex_ascii_char TokenKind.Comma stream
      else if b = 91 then lex_ascii_char TokenKind.LeftSquareBracket stream
      else if b = 93 then lex_ascii_char TokenKind.RightSquareBracket stream
      else if b = 123 then lex_ascii_char TokenKind.LeftCurlyBracket stream
      else if b = 125 then lex_ascii_char TokenKind.RightCurlyBracket stream
      else if b = 32 ∨ b = 9 then lex_whitespace stream
      else if b = 35 then lex_comment stream
      else if b = 13 then lex_crlf stream
      else if b = 10 then lex_ascii_char TokenKind.Newline stream
      else if b = 39 then
        match stream with
        | 39 :: 39 :: 39 :: _ => lex_ml_literal_string stream
        | _ => lex_literal_string stream
      else if b = 34 then
        match stream with
        | 34 :: 34 :: 34 :: _ => lex_ml_basic_string stream
        | _ => lex_basic_string stream
      else lex_atom stream

/-- Run the lexer iterator for at most `fuel` steps, returning the tokens
produced and the remaining (unconsumed) stream.  Whenever the lexer makes
progress on every step — which it does except at a `)` byte — fuel equal to
the input length reaches EOF. -/
def lexWithRest : Nat → List Nat → List Token × List Nat
  | 0, s => ([], s)
  | fuel + 1, s =>
    match Lexer.next s with
    | none => ([], s)
    | some (t, rest) =>
      let (ts, r) := lexWithRest fuel rest
      (t :: ts, r)

/-- The token sequence `Document::lex` yields, observed with input-length fuel. -/
def lex_tokens (s : List Nat) : List Token :=
  (lexWithRest s.length s).1

/-! ## Error model (`error.rs`) -/

/-- The `Expected`: a literal or a described expectation. -/
inductive Expected where
  | Literal : String → Expected
  | Description : String → Expected
deriving DecidableEq, Repr

/-- The `ParseError`: context span, static description, expected set and the
offending span.  `Raw` fields are modelled by their byte content; zero-length
spans (`before()` / `after()`) are `[]`. -/
structure ParseError where
  context : List Nat
  description : String
  expected : List Expected
  unexpected : List Nat
deriving DecidableEq, Repr

/-! ## Validator plumbing (`parser/mod.rs`) -/

/-- The `str::is_char_boundary`: `0` and the length are boundaries, and an
interior index is a boundary when its byte is not a UTF-8 continuation byte. -/
def isCharBoundary (s : List Nat) (i : Nat) : Bool :=
  if i = 0 then true
  else if i = s.length then true
  else
    match s.get? i with
    | some b => decide (b < 128 ∨ 192 ≤ b)
    | none => false

/-- The `substr_at` from `parser/mod.rs`: the code point around byte `offset`.
`start` is the largest boundary `≤ offset`, `stop` the smallest boundary
`> offset` (or the length).  The Rust function `debug_assert!`s
`offset < raw.len()`; this model returns the (empty) slice the release build
produces when that assertion is violated. -/
def substr_at (raw : List Nat) (offset : Nat) : List Nat :=
  let start := (((List.range (offset + 1)).reverse).find? (fun i => isCharBoundary raw i)).getD 0
  let stop :=
    ((List.range' (offset + 1) (raw.length - (offset + 1))).find?
      (fun i => isCharBoundary raw i)).getD raw.length
  (raw.drop start).take (stop - start)

/-- The precondition asserted by `substr_at` (`debug_assert!(offset < raw.len())`). -/
def substr_at_precondition (raw : List Nat) (offset : Nat) : Prop :=
  offset < raw.length

/-! ## Trivia validators (`parser/trivia.rs`) -/

/-- The `parse_whitespace`: a no-op, the lexer already scanned the byte set. -/
def parse_whitespace (raw : List Nat) : List Nat × List ParseError :=
  (raw, [])

/-- The `non-eol = %x09 / %x20-7E / non-ascii` (`NON_EOL`). -/
def nonEolB (b : Nat) : Bool :=
  decide (b = 9 ∨ (32 ≤ b ∧ b ≤ 126) ∨ (128 ≤ b ∧ b ≤ 255))

/-- The `parse_comment`: when the first byte is `#` the scan covers the tail
(`split_first`'s binding) and each non-`non-eol` byte is reported at
`substr_at raw (i + 1)`; when it is not, the missing `#` is reported and —
because the pattern binding is scoped to the `if let` branch — the scan
covers the *full* raw while still reporting at `substr_at raw (i + 1)`, so
those offsets are shifted one past the offending byte. -/
def parse_comment (raw : List Nat) : List Nat × List ParseError :=
  let desc := "comment"
  let (rest, e1) :=
    match raw with
    | 35 :: t => (t, ([] : List ParseError))
    | _ => (raw, [ParseError.mk raw desc [Expected.Literal "#"] []])
  let e2 : List ParseError :=
    (List.range rest.length).filterMap fun i =>
      match rest.get? i with
      | some b =>
        if nonEolB b then none
        else some (ParseError.mk raw desc [] (substr_at raw (i + 1)))
      | none => none
  (raw, e1 ++ e2)

/-- The `parse_newline`: accepts `"\n"` and `"\r\n"`; a lone `"\r"` and anything
else are reported. -/
def parse_newline (raw : List Nat) : List Nat × List ParseError :=
  let desc := "newline"
  match raw with
  | [10] => (raw, [])
  | [13, 10] => (raw, [])
  | [13] => (raw, [ParseError.mk raw desc [Expected.Description "linefeed (`\\n\x27)"] []])
  | _ => (raw, [ParseError.mk raw desc [Expected.Description "linefeed (`\\n\x27)"] raw])

/-! ## Unquoted keys (`parser/key.rs`) -/

/-- The `unquoted-key = 1*( ALPHA / DIGIT / %x2D / %x5F )` (`UNQUOTED_CHAR`). -/
def unquotedCharB (b : Nat) : Bool :=
  decide ((65 ≤ b ∧ b ≤ 90) ∨ (97 ≤ b ∧ b ≤ 122) ∨ (48 ≤ b ∧ b ≤ 57) ∨ b = 45 ∨ b = 95)

/-- The `parse_unquoted_key`: every byte outside the unquoted-key alphabet is
reported at its code point. -/
def parse_unquoted_key (raw : List Nat) : List Nat × List ParseError :=
  let errs : List ParseError :=
    (List.range raw.length).filterMap fun i =>
      match raw.get? i with
      | some b =>
        if unquotedCharB b then none
        else
          some (ParseError.mk raw "unquoted-key"
            [Expected.Description "letters", Expected.Description "numbers",
              Expected.Literal "-", Expected.Literal "_"]
            (substr_at raw i))
      | none => none
  (raw, errs)

/-! ## Literal strings (`parser/strings.rs`) -/

/-- The `literal-char = %x09 / %x20-26 / %x28-7E / non-ascii` (`LITERAL_CHAR`,
also `MLL_CHAR`). -/
def literalCharB (b : Nat) : Bool :=
  decide (b = 9 ∨ (32 ≤ b ∧ b ≤ 38) ∨ (40 ≤ b ∧ b ≤ 126) ∨ (128 ≤ b ∧ b ≤ 255))

/-- The `parse_literal_string`: strip the surrounding `'` (reporting each missing
delimiter), then report every byte outside `literal-char`. -/
def parse_literal_string (raw : List Nat) : List Nat × List ParseError :=
  let desc := "literal string"
  let (s1, e1) :=
    match raw with
    | 39 :: t => (t, ([] : List ParseError))
    | _ => (raw, [ParseError.mk raw desc [Expected.Literal "\x27"] []])
  let (s2, e2) :=
    if s1.getLast? = some 39 then (s1.dropLast, ([] : List ParseError))
    else (s1, [ParseError.mk raw desc [Expected.Literal "\x27"] []])
  let e3 : List ParseError :=
    (List.range s2.length).filterMap fun i =>
      match s2.get? i with
      | some b =>
        if literalCharB b then none
        else some (ParseError.mk raw desc [] (substr_at s2 i))
      | none => none
  (s2, e1 ++ e2 ++ e3)

/-- The `strip_start_newline`: strip one leading `\n` or `\r\n`. -/
def strip_start_newline (s : List Nat) : List Nat :=
  match s with
  | 10 :: t => t
  | 13 :: 10 :: t => t
  | _ => s

/-- Body scan of `parse_ml_literal_string`: `'` and `\n` are fine, a `\r` not
followed by `\n` is reported at `substr_at s (i+1)`, and any other byte
outside `mll-char` is reported at `substr_at s i`. -/
def mll_errs (ctx : List Nat) (s : List Nat) : List ParseError :=
  let desc := "multi-line literal string"
  (List.range s.length).filterMap fun i =>
    match s.get? i with
    | some b =>
      if b = 39 ∨ b = 10 then none
      else if b = 13 then
        if s.get? (i + 1) = some 10 then none
        else some (ParseError.mk ctx desc [Expected.Description "`\n`"] (substr_at s (i + 1)))
      else if literalCharB b then none
      else some (ParseError.mk ctx desc [] (substr_at s i))
    | none => none

/-- The `parse_ml_literal_string`: strip `'''`, one leading newline, and the
closing `'''` (right-trimming stray `'` when it is missing), then scan the
body with `mll_errs`. -/
def parse_ml_literal_string (raw : List Nat) : List Nat × List ParseError :=
  let desc := "multi-line literal string"
  let (s1, e1) :=
    match raw with
    | 39 :: 39 :: 39 :: t => (t, ([] : List ParseError))
    | _ => (raw, [ParseError.mk raw desc [Expected.Literal "\x27"] []])
  let s2 := strip_start_newline s1
  let (s3, e2) :=
    if [39, 39, 39].isSuffixOf s2 then (s2.take (s2.length - 3), ([] : List ParseError))
    else ((s2.reverse.dropWhile (fun b => b = 39)).reverse,
      [ParseError.mk raw desc [Expected.Literal "\x27"] []])
  (s3, e1 ++ e2 ++ mll_errs raw s3)

/-- Arguments of every `substr_at` call `parse_ml_literal_string` makes, as
`(s, offset)` pairs, in call order: the `\r`-not-followed-by-`\n` branch calls
`substr_at s (i + 1)` and the bad-byte branch calls `substr_at s i`
(the delimiter branches make no `substr_at` call). -/
def parse_ml_literal_string_substr_calls (raw : List Nat) : List (List Nat × Nat) :=
  let s1 :=
    match raw with
    | 39 :: 39 :: 39 :: t => t
    | _ => raw
  let s2 := strip_start_newline s1
  let s3 :=
    if [39, 39, 39].isSuffixOf s2 then s2.take (s2.length - 3)
    else (s2.reverse.dropWhile (fun b => b = 39)).reverse
  (List.range s3.length).filterMap fun i =>
    match s3.get? i with
    | some b =>
      if b = 39 ∨ b = 10 then none
      else if b = 13 then
        if s3.get? (i + 1) = some 10 then none
        else some (s3, i + 1)
      else if literalCharB b then none
      else some (s3, i)
    | none => none

/-! ## Basic strings (`parser/strings.rs`) -/

/-- The `Cow<'i, str>`: borrowed slice or owned buffer.  `Cow::to_mut` always
yields the owned form. -/
inductive CowStr where
  | borrowed : List Nat → CowStr
  | owned : List Nat → CowStr
deriving DecidableEq, Repr

/-- Underlying bytes of a `CowStr`. -/
def CowStr.toList : CowStr → List Nat
  | CowStr.borrowed s => s
  | CowStr.owned s => s

/-- The `to_mut().push(c)`: converts to owned and appends one character. -/
def CowStr.push (c : CowStr) (b : Nat) : CowStr :=
  CowStr.owned (c.toList ++ [b])

/-- The `to_mut().push_str(s)`: converts to owned and appends a slice. -/
def CowStr.pushList (c : CowStr) (s : List Nat) : CowStr :=
  CowStr.owned (c.toList ++ s)

/-- True exactly for the zero-copy (`Cow::Borrowed`) form. -/
def CowStr.isBorrowed : CowStr → Bool
  | CowStr.borrowed _ => true
  | CowStr.owned _ => false

/-- The `basic-unescaped = wschar / %x21 / %x23-5B / %x5D-7E / non-ascii`
(`BASIC_UNESCAPED`, identical to `MLB_UNESCAPED`). -/
def basicUnescapedB (b : Nat) : Bool :=
  decide (b = 32 ∨ b = 9 ∨ b = 33 ∨ (35 ≤ b ∧ b ≤ 91) ∨ (93 ≤ b ∧ b ≤ 126) ∨
    (128 ≤ b ∧ b ≤ 255))

/-- The `HEXDIG = DIGIT / A-F / a-f`. -/
def isHexDigitB (b : Nat) : Bool :=
  decide ((48 ≤ b ∧ b ≤ 57) ∨ (65 ≤ b ∧ b ≤ 70) ∨ (97 ≤ b ∧ b ≤ 102))

/-- Numeric value of one hex digit byte. -/
def hexDigitVal (b : Nat) : Nat :=
  if b ≤ 57 then b - 48 else if b ≤ 70 then b - 55 else b - 87

/-- Value of a big-endian string of hex digit bytes (`u32::from_str_radix`). -/
def hexVal (l : List Nat) : Nat :=
  l.foldl (fun acc b => acc * 16 + hexDigitVal b) 0

/-- The `char::from_u32` succeeds exactly on Unicode scalar values: below the
surrogate block, or between it and `0x10FFFF`. -/
def isUnicodeScalar (v : Nat) : Bool :=
  decide (v < 55296 ∨ (57344 ≤ v ∧ v ≤ 1114111))

/-- The `hexescape::<ES, N>`: `take_while(0..=N, HEXDIG)` then `verify(len == N)`,
then `char::from_u32`.  On a failed length check winnow's `verify` resets the
input (nothing consumed); on a failed `from_u32` the digits stay consumed. -/
def hexescape (n : Nat) (input : List Nat) : Option Nat × List Nat :=
  let digits := (input.takeWhile isHexDigitB).take n
  if digits.length = n then
    let v := hexVal digits
    if isUnicodeScalar v then (some v, input.drop n) else (none, input.drop n)
  else (none, input)

/-- The `expected` list reported for an unknown escape character. -/
def expected_escape_chars : List Expected :=
  [Expected.Literal "b", Expected.Literal "f", Expected.Literal "n", Expected.Literal "r",
    Expected.Literal "\\", Expected.Literal "\"", Expected.Literal "u", Expected.Literal "U"]

/-- The `escape_seq_char`, applied to the input after the `\` was consumed.
Returns the decoded character (as a code point), the reported diagnostics and
the remaining input.  At EOF the code reports an empty expectation and decodes
to `"`; an unknown escape character is *unconsumed* (winnow `reset`), reported
with `expected_escape_chars`, and decodes to a space. -/
def escape_seq_char (ctx : List Nat) (desc : String) (input : List Nat) :
    Nat × List ParseError × List Nat :=
  match input with
  | [] => (34, [ParseError.mk ctx desc [] []], [])
  | id :: rest =>
    if id = 98 then (8, [], rest)
    else if id = 102 then (12, [], rest)
    else if id = 110 then (10, [], rest)
    else if id = 114 then (13, [], rest)
    else if id = 116 then (9, [], rest)
    else if id = 117 then
      match hexescape 4 rest with
      | (some c, r) => (c, [], r)
      | (none, r) =>
        (32, [ParseError.mk ctx desc [Expected.Description "unicode 4-digit hex code"]
          (substr_at r 0)], r)
    else if id = 85 then
      match hexescape 8 rest with
      | (some c, r) => (c, [], r)
      | (none, r) =>
        (32, [ParseError.mk ctx desc [Expected.Description "unicode 8-digit hex code"]
          (substr_at r 0)], r)
    else if id = 92 then (92, [], rest)
    else if id = 34 then (34, [], rest)
    else (32, [ParseError.mk ctx desc expected_escape_chars (substr_at (id :: rest) 0)],
      id :: rest)

/-- The `escaped`: if the next byte is `\`, decode the escape with
`escape_seq_char`; otherwise report the offending code point, consume it, and
produce a space. -/
def escaped (ctx : List Nat) (desc : String) (input : List Nat) :
    Nat × List ParseError × List Nat :=
  match input with
  | 92 :: rest => escape_seq_char ctx desc rest
  | _ =>
    let u := substr_at input 0
    (32, [ParseError.mk ctx desc [] u], input.drop u.length)

/-- The loop of `basic_char`: while input remains, decode one `escaped`
production, then take the next `basic_unescaped` run.  Each iteration consumes
at least one byte, so fuel equal to the input length is sufficient. -/
def basic_char_loop (ctx : List Nat) (desc : String) :
    Nat → CowStr → List Nat → CowStr × List ParseError
  | 0, acc, _ => (acc, [])
  | _ + 1, acc, [] => (acc, [])
  | fuel + 1, acc, b :: t =>
    let (c, errs1, rest1) := escaped ctx desc (b :: t)
    let run := rest1.takeWhile basicUnescapedB
    let rest2 := rest1.dropWhile basicUnescapedB
    let (res, errs2) := basic_char_loop ctx desc fuel ((acc.push c).pushList run) rest2
    (res, errs1 ++ errs2)

/-- The `basic_char`: an initial `basic_unescaped` run held as a borrow, then the
escape loop. -/
def basic_char (ctx : List Nat) (desc : String) (s : List Nat) : CowStr × List ParseError :=
  basic_char_loop ctx desc s.length (CowStr.borrowed (s.takeWhile basicUnescapedB))
    (s.dropWhile basicUnescapedB)

/-- Delimiter stripping of `parse_basic_string`: strip a leading and a
trailing `"`, reporting each missing delimiter with a zero-width span. -/
def strip_basic_delims (raw : List Nat) : List Nat × List ParseError :=
  let desc := "basic string"
  let (s1, e1) :=
    match raw with
    | 34 :: t => (t, ([] : List ParseError))
    | _ => (raw, [ParseError.mk raw desc [Expected.Literal "\""] []])
  if s1.getLast? = some 34 then (s1.dropLast, e1)
  else (s1, e1 ++ [ParseError.mk raw desc [Expected.Literal "\""] []])

/-- The `parse_basic_string`: strip the delimiters, then decode the body with
`basic_char`.  The result borrows the input exactly when the loop of
`basic_char` never runs. -/
def parse_basic_string (raw : List Nat) : CowStr × List ParseError :=
  let (s, e) := strip_basic_delims raw
  let (c, e2) := basic_char raw "basic string" s
  (c, e ++ e2)

/-! ## Multi-line basic strings (`parser/strings.rs`) -/

/-- The `newline` winnow parser from `parser/trivia.rs`: `\n`, `\r\n`, or a
lone `\r` (consumed with a reported diagnostic); anything else backtracks. -/
def newlineP (ctx : List Nat) (desc : String) (input : List Nat) :
    Option (List Nat × List ParseError × List Nat) :=
  match input with
  | 10 :: r => some ([10], [], r)
  | 13 :: 10 :: r => some ([13, 10], [], r)
  | 13 :: r =>
    some ([13], [ParseError.mk ctx desc [Expected.Description "linefeed (`\\n\x27)"] []], r)
  | _ => none

/-- Iterations of `repeat(1.., (take_while(0.., WSCHAR), newline))` inside
`mlb_escaped_nl`: consume a whitespace run and a newline per iteration; a
failed iteration is rolled back (winnow resets it).  Each successful iteration
consumes at least the newline byte, so length-based fuel suffices. -/
def escaped_nl_iter (ctx : List Nat) (desc : String) :
    Nat → List Nat → List ParseError × List Nat
  | 0, s => ([], s)
  | fuel + 1, s =>
    let s1 := s.dropWhile wscharB
    match s1 with
    | 10 :: r =>
      let (es, r2) := escaped_nl_iter ctx desc fuel r
      (es, r2)
    | 13 :: 10 :: r =>
      let (es, r2) := escaped_nl_iter ctx desc fuel r
      (es, r2)
    | 13 :: r =>
      let (es, r2) := escaped_nl_iter ctx desc fuel r
      (ParseError.mk ctx desc [Expected.Description "linefeed (`\\n\x27)"] [] :: es, r2)
    | _ => ([], s)

/-- The `opt(mlb_escaped_nl)`: a `\` followed by at least one
whitespace-then-newline group, then trailing whitespace; `none` when the
backslash-newline production does not apply (winnow `opt` resets). -/
def mlb_escaped_nl (ctx : List Nat) (desc : String) (input : List Nat) :
    Option (List ParseError × List Nat) :=
  match input with
  | 92 :: t =>
    match t.dropWhile wscharB with
    | 10 :: _ =>
      let (es, r) := escaped_nl_iter ctx desc (t.length + 1) t
      some (es, r.dropWhile wscharB)
    | 13 :: _ =>
      let (es, r) := escaped_nl_iter ctx desc (t.length + 1) t
      some (es, r.dropWhile wscharB)
    | _ => none
  | _ => none

/-- The run accepted by `mlb_unescaped`: `MLB_UNESCAPED` extended with `"`
and `\n`. -/
def mlbRunB (b : Nat) : Bool :=
  basicUnescapedB b || decide (b = 34 ∨ b = 10)

/-- The loop of `ml_basic_body`: dispatch on the byte that stopped the
unescaped run — `\r` goes through the `newline` parser, `\` through
`mlb_escaped_nl` (contributing nothing) or `escaped`, and any other byte is
reported and dropped — then take the next run. -/
def ml_basic_body_loop (ctx : List Nat) (desc : String) :
    Nat → CowStr → List Nat → CowStr × List ParseError
  | 0, acc, _ => (acc, [])
  | _ + 1, acc, [] => (acc, [])
  | fuel + 1, acc, b :: t =>
    let (acc1, errs1, rest1) :=
      if b = 13 then
        match newlineP ctx desc (b :: t) with
        | some (s, errs, r) => (acc.pushList s, errs, r)
        | none => (acc, [], t)
      else if b = 92 then
        match mlb_escaped_nl ctx desc (b :: t) with
        | some (errs, r) => (acc, errs, r)
        | none =>
          let (c, errs, r) := escaped ctx desc (b :: t)
          (acc.push c, errs, r)
      else
        let u := substr_at (b :: t) 0
        (acc, [ParseError.mk ctx desc [] u], (b :: t).drop u.length)
    let run := rest1.takeWhile mlbRunB
    let rest2 := rest1.dropWhile mlbRunB
    let (res, errs2) := ml_basic_body_loop ctx desc fuel (acc1.pushList run) rest2
    (res, errs1 ++ errs2)

/-- The `ml_basic_body`: an initial run held as a borrow, then the loop. -/
def ml_basic_body (ctx : List Nat) (desc : String) (s : List Nat) :
    CowStr × List ParseError :=
  ml_basic_body_loop ctx desc s.length (CowStr.borrowed (s.takeWhile mlbRunB))
    (s.dropWhile mlbRunB)

/-- The `parse_ml_basic_string`: strip `"""`, one leading newline, and the closing
`"""` (right-trimming stray `"` when it is missing), then decode the body. -/
def parse_ml_basic_string (raw : List Nat) : CowStr × List ParseError :=
  let desc := "multi-line basic string"
  let (s1, e1) :=
    match raw with
    | 34 :: 34 :: 34 :: t => (t, ([] : List ParseError))
    | _ => (raw, [ParseError.mk raw desc [Expected.Literal "\""] []])
  let s2 := strip_start_newline s1
  let (s3, e2) :=
    if [34, 34, 34].isSuffixOf s2 then (s2.take (s2.length - 3), ([] : List ParseError))
    else ((s2.reverse.dropWhile (fun b => b = 34)).reverse,
      [ParseError.mk raw desc [Expected.Literal "\""] []])
  let (c, e3) := ml_basic_body raw desc s3
  (c, e1 ++ e2 ++ e3)

/-! ## Event parser (`parser/event.rs`)

Each function mirrors the Rust function of the same name.  A function that in
Rust advances the shared token slice and emits through the receiver and the
error sink is modelled as returning `(events, errors, remaining tokens)` (plus
its Rust return value where it has one); events and errors are listed in
emission order. -/

/-- The five string representations (`StringKind`). -/
inductive StringKind where
  | LiteralString
  | BasicString
  | MlLiteralString
  | MlBasicString
  | Unquoted
deriving DecidableEq, Repr

/-- Event kinds (`EventKind`). -/
inductive EventKind where
  | StdTableOpen
  | StdTableClose
  | ArrayTableOpen
  | ArrayTableClose
  | InlineTableOpen
  | InlineTableClose
  | ArrayOpen
  | ArrayClose
  | SimpleKey : StringKind → EventKind
  | KeySep
  | KeyValSep
  | Value : StringKind → EventKind
  | ValueSep
  | Decor
  | Error
deriving DecidableEq, Repr

/-- An event: kind plus raw span (modelled by its byte content). -/
structure Event where
  kind : EventKind
  raw : List Nat
deriving DecidableEq, Repr

/-- The `StringKind` a key- or value-shaped token maps to; `none` for
structural and trivia tokens.  This is the shared match arm set used by
`document`, `table_key` and `on_key`. -/
def string_kind_of : TokenKind → Option StringKind
  | TokenKind.LiteralString => some StringKind.LiteralString
  | TokenKind.BasicString => some StringKind.BasicString
  | TokenKind.MlLiteralString => some StringKind.MlLiteralString
  | TokenKind.MlBasicString => some StringKind.MlBasicString
  | TokenKind.Atom => some StringKind.Unquoted
  | _ => none

/-- The `next_token_if`: consume the next token when it has the given kind. -/
def next_token_if (kind : TokenKind) (ts : List Token) : Option Token × List Token :=
  match ts with
  | t :: rest => if t.kind = kind then (some t, rest) else (none, ts)
  | [] => (none, [])

/-- The `opt_whitespace`: one optional `Whitespace` token emitted as `Decor`. -/
def opt_whitespace (ts : List Token) : List Event × List Token :=
  match next_token_if TokenKind.Whitespace ts with
  | (some t, rest) => ([Event.mk EventKind.Decor t.raw], rest)
  | (none, rest) => ([], rest)

/-- The `ignore_to_newline`: emit every token as `Error` until a `Newline`
(emitted as `Decor`) or EOF. -/
def ignore_to_newline : List Token → List Event × List Token
  | [] => ([], [])
  | t :: rest =>
    if t.kind = TokenKind.Newline then ([Event.mk EventKind.Decor t.raw], rest)
    else
      let (evs, ts) := ignore_to_newline rest
      (Event.mk EventKind.Error t.raw :: evs, ts)

/-- The dotted-key loop of `on_key`.  Note the Rust loop emits
`key_token.raw()` — the *first* key token — for every later key segment, and
keeps `success = Some(key_token)`; this model reproduces that behaviour
faithfully.  Each iteration consumes at least the dot token, so fuel equal to
the token-list length suffices. -/
def on_key_loop (key_token : Token) (_kind : StringKind) :
    Nat → List Token → Option Token × List Event × List ParseError × List Token
  | 0, ts => (some key_token, [], [], ts)
  | fuel + 1, ts =>
    match next_token_if TokenKind.Dot ts with
    | (none, ts1) => (some key_token, [], [], ts1)
    | (some dot_token, ts1) =>
      let sepEv := Event.mk EventKind.KeySep dot_token.raw
      let (wsEvs, ts2) := opt_whitespace ts1
      match ts2 with
      | [] =>
        (none, sepEv :: wsEvs,
          [ParseError.mk (key_token.raw ++ dot_token.raw) "dotted key"
            [Expected.Description "key"] []], [])
      | cur :: ts3 =>
        match string_kind_of cur.kind with
        | none =>
          (none, sepEv :: wsEvs ++ [Event.mk EventKind.Error cur.raw],
            [ParseError.mk (key_token.raw ++ dot_token.raw) "dotted key"
              [Expected.Description "key"] []], ts3)
        | some kind2 =>
          let keyEv := Event.mk (EventKind.SimpleKey kind2) key_token.raw
          let (succ, evs, errs, ts4) := on_key_loop key_token kind2 fuel ts3
          (succ, sepEv :: wsEvs ++ keyEv :: evs, errs, ts4)

/-- The `on_key`: emit the first simple key, swallow trailing whitespace, then the
dotted-key loop. -/
def on_key (key_token : Token) (kind : StringKind) (ts : List Token) :
    Option Token × List Event × List ParseError × List Token :=
  let keyEv := Event.mk (EventKind.SimpleKey kind) key_token.raw
  let (wsEvs, ts1) := opt_whitespace ts
  let (succ, evs, errs, ts2) := on_key_loop key_token kind ts1.length ts1
  (succ, keyEv :: wsEvs ++ evs, errs, ts2)

/-- The `on_missing_table_key`: an `Error` event and a "table expects key"
diagnostic for the unusable token. -/
def on_missing_table_key (token : Token) : List Event × List ParseError :=
  ([Event.mk EventKind.Error token.raw],
    [ParseError.mk token.raw "table" [Expected.Description "key"] []])

/-- The `table_key`: eat leading whitespace, then either parse a key or report the
unusable token; at EOF, report against `previous_raw`. -/
def table_key (previous_raw : List Nat) :
    List Token → Option Token × List Event × List ParseError × List Token
  | [] => (none, [], [ParseError.mk previous_raw "table" [Expected.Description "key"] []], [])
  | cur :: rest =>
    match string_kind_of cur.kind with
    | some kind => on_key cur kind rest
    | none =>
      if cur.kind = TokenKind.Whitespace then
        let (succ, evs, errs, ts) := table_key previous_raw rest
        (succ, Event.mk EventKind.Decor cur.raw :: evs, errs, ts)
      else
        let (evs, errs) := on_missing_table_key cur
        (none, evs, errs, rest)

/-- The loop of `on_comment`: every token until the next `Newline` is an
`Error` event; the loop tracks the first/last token seen and the first/last
bad token. -/
def on_comment_loop (f l fb lb : Option Token) :
    List Token →
      List Event × Option Token × Option Token × Option Token × Option Token × List Token
  | [] => ([], f, l, fb, lb, [])
  | cur :: rest =>
    let f1 := some (f.getD cur)
    let l1 := some cur
    if cur.kind = TokenKind.Newline then
      ([Event.mk EventKind.Decor cur.raw], f1, l1, fb, lb, rest)
    else
      let fb1 := some (fb.getD cur)
      let lb1 := some cur
      let (evs, f2, l2, fb2, lb2, ts) := on_comment_loop f1 l1 fb1 lb1 rest
      (Event.mk EventKind.Error cur.raw :: evs, f2, l2, fb2, lb2, ts)

/-- The `on_comment`: the comment token is `Decor`; everything to the newline is
scanned, and bad tokens produce two aggregated diagnostics (one against the
comment, one against the whole scanned range). -/
def on_comment (comment_token : Token) (ts : List Token) :
    List Event × List ParseError × List Token :=
  let (evs, f, l, fb, lb, rest) := on_comment_loop none none none none ts
  let errs1 : List ParseError :=
    match fb, lb with
    | some a, some b => [ParseError.mk comment_token.raw "comment" [] (a.raw ++ b.raw)]
    | _, _ => []
  let errs2 : List ParseError :=
    match f, l, fb, lb with
    | some f1, some l1, some a, some b =>
      [ParseError.mk (f1.raw ++ l1.raw) "comment" [] (a.raw ++ b.raw)]
    | _, _, _, _ => []
  (Event.mk EventKind.Decor comment_token.raw :: evs, errs1 ++ errs2, rest)

/-- The loop of `ws_comment_nl`: whitespace is `Decor`, a `Newline` is `Decor`
and ends the run, a `Comment` hands over to `on_comment` and ends the run, and
anything else is an `Error` event tracked for the aggregated diagnostic. -/
def ws_comment_nl_loop (f l fb lb : Option Token) :
    List Token →
      List Event × List ParseError × Option Token × Option Token × Option Token ×
        Option Token × List Token
  | [] => ([], [], f, l, fb, lb, [])
  | cur :: rest =>
    let f1 := some (f.getD cur)
    let l1 := some cur
    if cur.kind = TokenKind.Whitespace then
      let (evs, errs, f2, l2, fb2, lb2, ts) := ws_comment_nl_loop f1 l1 fb lb rest
      (Event.mk EventKind.Decor cur.raw :: evs, errs, f2, l2, fb2, lb2, ts)
    else if cur.kind = TokenKind.Newline then
      ([Event.mk EventKind.Decor cur.raw], [], f1, l1, fb, lb, rest)
    else if cur.kind = TokenKind.Comment then
      let (evs, errs, ts) := on_comment cur rest
      (evs, errs, f1, l1, fb, lb, ts)
    else
      let fb1 := some (fb.getD cur)
      let lb1 := some cur
      let (evs, errs, f2, l2, fb2, lb2, ts) := ws_comment_nl_loop f1 l1 fb1 lb1 rest
      (Event.mk EventKind.Error cur.raw :: evs, errs, f2, l2, fb2, lb2, ts)

/-- The `ws_comment_nl`: run the loop, then report one aggregated "newline"
diagnostic when any bad token was seen. -/
def ws_comment_nl (ts : List Token) : List Event × List ParseError × List Token :=
  let (evs, errsC, f, l, fb, lb, rest) := ws_comment_nl_loop none none none none ts
  match f, l, fb, lb with
  | some f1, some l1, some a, some b =>
    (evs, errsC ++ [ParseError.mk (f1.raw ++ l1.raw) "newline" [] (a.raw ++ b.raw)], rest)
  | _, _, _, _ => (evs, errsC, rest)

/-- The `on_table`: open bracket(s), table key, optional whitespace, close
bracket(s); on success consume the trailing trivia run, otherwise recover to
the next newline.  Note that when an array table's first `]` is not followed
by a second `]`, the consumed `]` produces no event at all. -/
def on_table (open_token : Token) (ts : List Token) :
    List Event × List ParseError × List Token :=
  let (second?, ts1) := next_token_if TokenKind.LeftSquareBracket ts
  let (is_array_table, open_raw, openEv) :=
    match second? with
    | some second =>
      (true, open_token.raw ++ second.raw,
        Event.mk EventKind.ArrayTableOpen (open_token.raw ++ second.raw))
    | none => (false, open_token.raw, Event.mk EventKind.StdTableOpen open_token.raw)
  let (lastKey?, kevs, kerrs, ts2) := table_key open_raw ts1
  let (wsEvs, ts3) := opt_whitespace ts2
  match lastKey? with
  | none =>
    let (revs, ts4) := ignore_to_newline ts3
    (openEv :: kevs ++ wsEvs ++ revs, kerrs, ts4)
  | some last_key =>
    match next_token_if TokenKind.RightSquareBracket ts3 with
    | (none, _) =>
      let err :=
        if is_array_table then
          ParseError.mk (open_token.raw ++ last_key.raw) "array table"
            [Expected.Literal "]]"] []
        else
          ParseError.mk (open_token.raw ++ last_key.raw) "table" [Expected.Literal "]"] []
      let (revs, ts4) := ignore_to_newline ts3
      (openEv :: kevs ++ wsEvs ++ revs, kerrs ++ [err], ts4)
    | (some close_token, ts4) =>
      if is_array_table then
        match next_token_if TokenKind.RightSquareBracket ts4 with
        | (some close2, ts5) =>
          let closeEv := Event.mk EventKind.ArrayTableClose (close_token.raw ++ close2.raw)
          let (tevs, terrs, ts6) := ws_comment_nl ts5
          (openEv :: kevs ++ wsEvs ++ closeEv :: tevs, kerrs ++ terrs, ts6)
        | (none, _) =>
          let err :=
            ParseError.mk (open_token.raw ++ close_token.raw) "array table"
              [Expected.Literal "]"] []
          let (revs, ts5) := ignore_to_newline ts4
          (openEv :: kevs ++ wsEvs ++ revs, kerrs ++ [err], ts5)
      else
        let closeEv := Event.mk EventKind.StdTableClose close_token.raw
        let (tevs, terrs, ts5) := ws_comment_nl ts4
        (openEv :: kevs ++ wsEvs ++ closeEv :: tevs, kerrs ++ terrs, ts5)

/-- The `on_expression_key`: parse the key; on failure recover to the next
newline.  (In the source nothing further is parsed on success: the `=` and
the value are left to the top-level loop.) -/
def on_expression_key (key_token : Token) (kind : StringKind) (ts : List Token) :
    List Event × List ParseError × List Token :=
  let (succ, evs, errs, ts1) := on_key key_token kind ts
  match succ with
  | none =>
    let (revs, ts2) := ignore_to_newline ts1
    (evs ++ revs, errs, ts2)
  | some _ => (evs, errs, ts1)

/-- The `on_missing_expression_key`: an `Error` event and a "key-value pair
expects key" diagnostic, then recovery to the next newline. -/
def on_missing_expression_key (token : Token) (ts : List Token) :
    List Event × List ParseError × List Token :=
  let (revs, ts1) := ignore_to_newline ts
  (Event.mk EventKind.Error token.raw :: revs,
    [ParseError.mk token.raw "key-value pair" [Expected.Description "key"] []], ts1)

/-- The `on_missing_on_std_table`: an `Error` event and an "expected `[`"
diagnostic for a stray `]`, then a trailing-trivia run. -/
def on_missing_on_std_table (token : Token) (ts : List Token) :
    List Event × List ParseError × List Token :=
  let (evs, errs, ts1) := ws_comment_nl ts
  (Event.mk EventKind.Error token.raw :: evs,
    ParseError.mk token.raw "table" [Expected.Literal "["] [] :: errs, ts1)

/-- The top-level loop of `document`: dispatch on the kind of each token.
Every iteration consumes at least the dispatched token, so fuel equal to the
token-list length suffices. -/
def document_loop : Nat → List Token → List Event × List ParseError
  | 0, _ => ([], [])
  | _ + 1, [] => ([], [])
  | fuel + 1, cur :: rest =>
    let (evs, errs, ts) :=
      match string_kind_of cur.kind with
      | some kind => on_expression_key cur kind rest
      | none =>
        if cur.kind = TokenKind.LeftSquareBracket then on_table cur rest
        else if cur.kind = TokenKind.RightSquareBracket then
          on_missing_on_std_table cur rest
        else if cur.kind = TokenKind.Whitespace ∨ cur.kind = TokenKind.Newline then
          ([Event.mk EventKind.Decor cur.raw], [], rest)
        else if cur.kind = TokenKind.Comment then on_comment cur rest
        else on_missing_expression_key cur rest
    let (evs2, errs2) := document_loop fuel ts
    (evs ++ evs2, errs ++ errs2)

/-- The `parse_tokens` / `document`: drive the event parser over the whole token
sequence. -/
def parse_tokens (ts : List Token) : List Event × List ParseError :=
  document_loop ts.length ts

/-- Modelled from the spec: the key-value continuation of
`on_expression_key` — consuming the `=` (`KeyValSep`), the value (`Value`)
and the trailing trivia run — is absent from the source tree (the
`EventReceiver` trait declares `key_val_sep` and `value`, but nothing under
`src/` calls them).  This model follows spec §4.2 (state machine `KV`:
`=`, value, trailing) and the §8 scenarios: after a successful key, a `=`
is required (a missing one is reported with a zero-width span and recovery
to the newline), optional whitespace is `Decor`, then a string- or
atom-shaped token is emitted as `Value` and the line ends with a
`ws-comment-newline` run; a missing value is reported with
`expected = value` at the `before()` of the offending token, which becomes
an `Error` event, with recovery to the newline.  The array and
inline-table sub-machines (also absent from `src/`) are not modelled: a
scalar value suffices for the claims below. -/
def on_expression_keyval (key_token : Token) (kind : StringKind) (ts : List Token) :
    List Event × List ParseError × List Token :=
  let (succ, evs, errs, ts1) := on_key key_token kind ts
  match succ with
  | none =>
    let (revs, ts2) := ignore_to_newline ts1
    (evs ++ revs, errs, ts2)
  | some last_key =>
    match next_token_if TokenKind.Equals ts1 with
    | (none, _) =>
      let err := ParseError.mk (key_token.raw ++ last_key.raw) "key-value pair"
        [Expected.Literal "="] []
      let (revs, ts2) := ignore_to_newline ts1
      (evs ++ revs, errs ++ [err], ts2)
    | (some eq_token, ts2) =>
      let eqEv := Event.mk EventKind.KeyValSep eq_token.raw
      let (wsEvs, ts3) := opt_whitespace ts2
      match ts3 with
      | [] =>
        let err := ParseError.mk (key_token.raw ++ eq_token.raw) "key-value pair"
          [Expected.Description "value"] []
        (evs ++ eqEv :: wsEvs, errs ++ [err], [])
      | v :: ts4 =>
        match string_kind_of v.kind with
        | some vkind =>
          let vEv := Event.mk (EventKind.Value vkind) v.raw
          let (tevs, terrs, ts5) := ws_comment_nl ts4
          (evs ++ eqEv :: wsEvs ++ vEv :: tevs, errs ++ terrs, ts5)
        | none =>
          let err := ParseError.mk (key_token.raw ++ eq_token.raw) "key-value pair"
            [Expected.Description "value"] []
          let (revs, ts5) := ignore_to_newline ts4
          (evs ++ eqEv :: wsEvs ++ Event.mk EventKind.Error v.raw :: revs,
            errs ++ [err], ts5)

/-- The top-level loop of `document` with the spec-modelled key-value
continuation substituted for the truncated `on_expression_key`. -/
def document_full_loop : Nat → List Token → List Event × List ParseError
  | 0, _ => ([], [])
  | _ + 1, [] => ([], [])
  | fuel + 1, cur :: rest =>
    let (evs, errs, ts) :=
      match string_kind_of cur.kind with
      | some kind => on_expression_keyval cur kind rest
      | none =>
        if cur.kind = TokenKind.LeftSquareBracket then on_table cur rest
        else if cur.kind = TokenKind.RightSquareBracket then
          on_missing_on_std_table cur rest
        else if cur.kind = TokenKind.Whitespace ∨ cur.kind = TokenKind.Newline then
          ([Event.mk EventKind.Decor cur.raw], [], rest)
        else if cur.kind = TokenKind.Comment then on_comment cur rest
        else on_missing_expression_key cur rest
    let (evs2, errs2) := document_full_loop fuel ts
    (evs ++ evs2, errs ++ errs2)

/-- The `parse_tokens` over the spec-completed parser. -/
def parse_tokens_full (ts : List Token) : List Event × List ParseError :=
  document_full_loop ts.length ts

/-! ## The multi-line-basic scanning policy as the specification words it

The spec (§4.1) and claim C6 describe the scan of a `"""…"""` token as: scan
to the next `"""` or `\`; on `\` handle the escape as in the single-line case
(consume it, and the following byte when that byte is `\` or `"`) and continue
scanning — i.e. keep looking for `"""` or `\`; on `"""` include it and then
consume up to two additional `"`.  The following functions state that policy
literally, for comparison with `lex_ml_basic_string`. -/

/-- Length of the token body consumed under the claimed policy. -/
def ml_basic_spec_len : Nat → List Nat → Nat
  | 0, _ => 0
  | fuel + 1, body =>
    match find_mlb body with
    | none => body.length
    | some (i, true) => i + 3 + extra_quotes 34 (body.drop (i + 3))
    | some (i, false) =>
      let t := body.drop (i + 1)
      let e := match t with
        | 92 :: _ => 1
        | 34 :: _ => 1
        | _ => 0
      i + 1 + e + ml_basic_spec_len fuel (t.drop e)

/-- The raw a multi-line basic string token would get under the claimed
scanning policy. -/
def lex_ml_basic_string_spec (stream : List Nat) : List Nat :=
  let body := stream.drop 3
  stream.take (3 + ml_basic_spec_len (body.length + 1) body)

/-! ## Helper lemmas -/

theorem head?_drop_get? (l : List Nat) (n : Nat) : (l.drop n).head? = l.get? n := by
  simp [List.head?_eq_getElem?, List.getElem?_drop, List.get?_eq_getElem?]

/-- The escape loop does nothing unless positioned at a `\`. -/
theorem lex_basic_escape_loop_eq_zero (fuel : Nat) (s : List Nat)
    (h : s.head? ≠ some 92) : lex_basic_escape_loop fuel s = 0 := by
  unfold lex_basic_escape_loop
  split
  · exact absurd rfl h
  · rfl

/-- When `find_mlb` stops at a backslash, that position holds a backslash. -/
theorem find_mlb_false_get (l : List Nat) (i : Nat)
    (h : find_mlb l = some (i, false)) : l.get? i = some 92 := by
  induction l using find_mlb.induct generalizing i with
  | case1 => simp [find_mlb] at h
  | case2 =>
    simp [find_mlb] at h
    obtain ⟨rfl, -⟩ := h
    simp
  | case3 x t hne hne92 ih =>
    rw [find_mlb] at h
    · simp only [Option.map_eq_some'] at h
      obtain ⟨⟨j, d⟩, hj, hm⟩ := h
      have hji : j + 1 = i := congrArg Prod.fst hm
      have hd : d = false := congrArg Prod.snd hm
      subst hji hd
      simpa using ih j hj
    · exact hne
    · exact hne92
  | case4 => simp [find_mlb] at h

/-! ## Claim theorems -/

/-- C1: for the input `foo = 42\n` (bytes `102 111 111 32 61 32 52 50 10`),
the lexer yields the six tokens `Atom "foo"`, `Whitespace " "`, `Equals "="`,
`Whitespace " "`, `Atom "42"`, `Newline "\n"`, and the event parser (with the
spec-modelled key-value continuation `on_expression_keyval`, the source tree
lacking that code) emits exactly `SimpleKey("foo", Unquoted)`, `Decor(" ")`,
`KeyValSep("=")`, `Decor(" ")`, `Value("42", Unquoted)`, `Decor("\n")`, in
that order, with zero diagnostics. -/
theorem c1_keyval_events :
    lexWithRest 9 [102, 111, 111, 32, 61, 32, 52, 50, 10] =
      ([Token.mk TokenKind.Atom [102, 111, 111], Token.mk TokenKind.Whitespace [32],
        Token.mk TokenKind.Equals [61], Token.mk TokenKind.Whitespace [32],
        Token.mk TokenKind.Atom [52, 50], Token.mk TokenKind.Newline [10]], []) ∧
    parse_tokens_full
      [Token.mk TokenKind.Atom [102, 111, 111], Token.mk TokenKind.Whitespace [32],
        Token.mk TokenKind.Equals [61], Token.mk TokenKind.Whitespace [32],
        Token.mk TokenKind.Atom [52, 50], Token.mk TokenKind.Newline [10]] =
      ([Event.mk (EventKind.SimpleKey StringKind.Unquoted) [102, 111, 111],
        Event.mk EventKind.Decor [32],
        Event.mk EventKind.KeyValSep [61],
        Event.mk EventKind.Decor [32],
        Event.mk (EventKind.Value StringKind.Unquoted) [52, 50],
        Event.mk EventKind.Decor [10]], []) := by
  decide

/-- C2 (code bug): for the input `[a.b]\n` (bytes `91 97 46 98 93 10`) the
parser reports zero diagnostics, yet the concatenation of the raws of the
emitted events is `[a.a]\n` — not the input — because the dotted-key loop of
`on_key` re-emits the first key token's raw for the second key segment
(contradicting `on_key`'s own documentation "Returns the last key on
success"). -/
theorem c2_roundtrip_failure :
    (parse_tokens (lex_tokens [91, 97, 46, 98, 93, 10])).2 = [] ∧
    List.flatten
        (((parse_tokens (lex_tokens [91, 97, 46, 98, 93, 10])).1).map Event.raw) =
      [91, 97, 46, 97, 93, 10] ∧
    [91, 97, 46, 97, 93, 10] ≠ [91, 97, 46, 98, 93, 10] := by
  refine ⟨by decide, by decide, by decide⟩

/-- C3 (code bug): on the input `)` (byte `41`), `Lexer::next` returns an
`Atom` token whose raw is *empty* and leaves the stream unchanged — `)` is in
`lex_atom`'s `TOKEN_START` stop set but has no dispatch arm — so iteration
makes no progress: it never ends at EOF and yields an unbounded stream of
empty tokens instead of finitely many tokens of at least one byte each. -/
theorem c3_lexer_stuck_on_paren :
    Lexer.next [41] = some (Token.mk TokenKind.Atom [], [41]) ∧
    lexWithRest 5 [41] =
      ([Token.mk TokenKind.Atom [], Token.mk TokenKind.Atom [], Token.mk TokenKind.Atom [],
        Token.mk TokenKind.Atom [], Token.mk TokenKind.Atom []], [41]) := by
  refine ⟨by decide, by decide⟩

/-- C4 (code bug): for the input `[a.b]\n` the parser emits the claimed event
kinds in the claimed order with no diagnostics, but the second `SimpleKey`
event carries the raw `a` (the first key token, re-emitted by the dotted-key
loop of `on_key`), not `b` as the claim states. -/
theorem c4_second_key_raw :
    parse_tokens (lex_tokens [91, 97, 46, 98, 93, 10]) =
      ([Event.mk EventKind.StdTableOpen [91],
        Event.mk (EventKind.SimpleKey StringKind.Unquoted) [97],
        Event.mk EventKind.KeySep [46],
        Event.mk (EventKind.SimpleKey StringKind.Unquoted) [97],
        Event.mk EventKind.StdTableClose [93],
        Event.mk EventKind.Decor [10]], []) ∧
    Event.mk (EventKind.SimpleKey StringKind.Unquoted) [97] ≠
      Event.mk (EventKind.SimpleKey StringKind.Unquoted) [98] := by
  refine ⟨by decide, by decide⟩

/-- C5 (code bug): on the input `)` the lexer's tokens do not tile the input:
every produced token is empty (see `c3_lexer_stuck_on_paren`), so the
concatenation of the token raws is `[]` after any number of steps and never
equals the input `[41]`. -/
theorem c5_tiling_failure :
    (lexWithRest 4 [41]).1.map Token.raw = [[], [], [], []] ∧
    List.flatten ((lexWithRest 4 [41]).1.map Token.raw) = [] ∧
    (lexWithRest 4 [41]).2 = [41] ∧
    ([] : List Nat) ≠ [41] := by
  refine ⟨by decide, by decide, by decide, by decide⟩

/-- C6 counterexample: for the input `"""\t"x"""` (bytes
`34 34 34 92 116 34 120 34 34 34`, where `\t` is a backslash followed by the
letter `t`) the lexer stops the token at the single `"` after the escape —
raw `"""\t"` — while the claimed policy ("scan to the next `\"\"\"` or `\`")
continues to the closing `"""` and takes the whole input.  The claimed policy
therefore does not hold on every input with an escape before the closing
delimiter. -/
theorem c6_policy_counterexample :
    (lex_ml_basic_string [34, 34, 34, 92, 116, 34, 120, 34, 34, 34]).1.raw =
      [34, 34, 34, 92, 116, 34] ∧
    lex_ml_basic_string_spec [34, 34, 34, 92, 116, 34, 120, 34, 34, 34] =
      [34, 34, 34, 92, 116, 34, 120, 34, 34, 34] ∧
    (lex_ml_basic_string [34, 34, 34, 92, 116, 34, 120, 34, 34, 34]).1.raw ≠
      lex_ml_basic_string_spec [34, 34, 34, 92, 116, 34, 120, 34, 34, 34] := by
  refine ⟨by decide, by decide, by decide⟩

/-- C6 as amended: the claimed scanning policy agrees with
`lex_ml_basic_string` on every input in which the initial scan is not left at
a `\`: the byte at offset `find_ml_basic body` of the body (the position the
escape loop would test) is not `\`.  This covers every input with no escape
before the first `"""` whose delimiter is not immediately followed by `\`;
when a `\` is reached, the lexer instead handles the escape and then scans
for a single `"` (included, plus up to two more `"`), a further `\`, or a
`\n`, exactly as in the single-line case. -/
theorem c6_policy_amended (s : List Nat)
    (h : (s.drop 3).get? (find_ml_basic (s.drop 3)) ≠ some 92) :
    (lex_ml_basic_string s).1.raw = lex_ml_basic_string_spec s := by
  simp only [lex_ml_basic_string, lex_ml_basic_string_spec]
  rcases hf : find_mlb (s.drop 3) with - | ⟨i, d⟩
  · have hfm : find_ml_basic (s.drop 3) = (s.drop 3).length := by
      unfold find_ml_basic; rw [hf]
    rw [ml_basic_spec_len.eq_def]
    simp only [hf, hfm, List.drop_length]
    rfl
  · cases d with
    | false =>
      exfalso
      have hfm : find_ml_basic (s.drop 3) = i := by
        unfold find_ml_basic; rw [hf]
      rw [hfm] at h
      exact h (find_mlb_false_get _ i hf)
    | true =>
      have hfm : find_ml_basic (s.drop 3) = i + 3 := by
        unfold find_ml_basic; rw [hf]
      rw [hfm] at h
      have hhead : ((s.drop 3).drop (i + 3)).head? ≠ some 92 := by
        rw [head?_drop_get?]; exact h
      have hloop := lex_basic_escape_loop_eq_zero
        ((s.drop 3).drop (i + 3)).length ((s.drop 3).drop (i + 3)) hhead
      rw [ml_basic_spec_len.eq_def]
      simp only [hf, hfm, hloop, List.drop_zero]
      congr 1
      omega

/-- C6 witness: `c6_policy_amended` applied to the concrete input `"""a"""`
(bytes `34 34 34 97 34 34 34`), whose body has no `\` before the closing
delimiter: the lexer token and the claimed policy agree. -/
theorem c6_policy_amended_witness :
    (lex_ml_basic_string [34, 34, 34, 97, 34, 34, 34]).1.raw =
      lex_ml_basic_string_spec [34, 34, 34, 97, 34, 34, 34] :=
  c6_policy_amended [34, 34, 34, 97, 34, 34, 34] (by decide)

/-- C7 counterexample: the input `"\x01"` (bytes `34 1 34`) lexes to a single
`BasicString` token whose raw contains no `\` (byte `92`), yet
`parse_basic_string` returns an owned buffer, not a borrow: the control
character `0x01` is outside `basic-unescaped`, so the decode loop runs and
`Cow::to_mut` materialises a fresh buffer. -/
theorem c7_borrow_counterexample :
    lex_tokens [34, 1, 34] = [Token.mk TokenKind.BasicString [34, 1, 34]] ∧
    (92 ∉ [34, 1, 34]) ∧
    (parse_basic_string [34, 1, 34]).1.isBorrowed = false := by
  refine ⟨by decide, by decide, by decide⟩

/-- The `basic_char_loop` is the identity on an empty input. -/
theorem basic_char_loop_nil (ctx : List Nat) (desc : String) (fuel : Nat) (acc : CowStr) :
    basic_char_loop ctx desc fuel acc [] = (acc, []) := by
  cases fuel <;> rfl

/-- C7 as amended: `parse_basic_string` returns a borrow of the
delimiter-stripped body whenever every body byte is in `basic-unescaped` — in
particular the body has no `\` *and* no character outside the basic-string
alphabet (such as a raw control character, which also forces an owned
buffer). -/
theorem c7_borrow_amended (raw : List Nat)
    (h : ∀ b ∈ (strip_basic_delims raw).1, basicUnescapedB b = true) :
    (parse_basic_string raw).1 = CowStr.borrowed (strip_basic_delims raw).1 := by
  simp only [parse_basic_string, basic_char]
  rw [List.takeWhile_eq_self_iff.mpr h, List.dropWhile_eq_nil_iff.mpr h,
    basic_char_loop_nil]

/-- C7 witness: `c7_borrow_amended` applied to the concrete token `"ab"`
(bytes `34 97 98 34`): the decoded value is the borrow of `ab`. -/
theorem c7_borrow_amended_witness :
    (parse_basic_string [34, 97, 98, 34]).1 = CowStr.borrowed [97, 98] :=
  c7_borrow_amended [34, 97, 98, 34] (by decide)

/-- C8 (code bug): on the raw `'''\r'''` (bytes `39 39 39 13 39 39 39`) the
body after delimiter stripping is the single byte `\r`; the scan loop of
`parse_ml_literal_string` sees a `\r` not followed by `\n` and calls
`substr_at(s, i + 1)` with `i + 1 = 1 = s.len()`, violating `substr_at`'s
asserted precondition `offset < raw.len()` (a panic in debug builds).  The
release build still returns the body, as recorded in the last conjunct. -/
theorem c8_substr_at_violation :
    parse_ml_literal_string_substr_calls [39, 39, 39, 13, 39, 39, 39] = [([13], 1)] ∧
    ¬ substr_at_precondition [13] 1 ∧
    (parse_ml_literal_string [39, 39, 39, 13, 39, 39, 39]).1 = [13] := by
  refine ⟨by decide, by simp [substr_at_precondition], by decide⟩

/-- The `hexescape` on an exact run of `n` hex digits: the digits are consumed and
the decoded value is accepted exactly when it is a Unicode scalar. -/
theorem hexescape_exact (n : Nat) (ds rest : List Nat) (h1 : ds.length = n)
    (h2 : ∀ b ∈ ds, isHexDigitB b = true) :
    hexescape n (ds ++ rest) =
      (if isUnicodeScalar (hexVal ds) = true then some (hexVal ds) else none, rest) := by
  unfold hexescape
  rw [List.takeWhile_append_of_pos h2, List.take_left' h1, List.drop_left' h1, if_pos h1]
  by_cases hc : isUnicodeScalar (hexVal ds) = true
  · rw [if_pos hc, if_pos hc]
  · rw [if_neg hc, if_neg hc]

/-- The `hexescape` when fewer than `n` hex digits follow: winnow's `verify`
fails and resets, consuming nothing. -/
theorem hexescape_short (n : Nat) (input : List Nat)
    (h : (input.takeWhile isHexDigitB).length < n) :
    hexescape n input = (none, input) := by
  unfold hexescape
  rw [if_neg]
  rw [List.length_take]
  omega

/-- C9: the escape decoding table of `escape_seq_char` (shared by
`parse_basic_string` and `parse_ml_basic_string`).  For `X` in
`{b, f, n, r, t, \, "}` the corresponding character is produced with no
diagnostic; for `\u` (`\U`) exactly 4 (8) hex digits are required and their
value must be a Unicode scalar — no surrogates — otherwise one diagnostic
with expected "unicode N-digit hex code" is reported and a space (`U+0020`)
substituted; any other `X` is reported with the expected set
`{b, f, n, r, \, ", u, U}` and a space substituted. -/
theorem c9_escape_decoding (ctx : List Nat) (desc : String) (rest : List Nat) :
    (escape_seq_char ctx desc (98 :: rest) = (8, [], rest)) ∧
    (escape_seq_char ctx desc (102 :: rest) = (12, [], rest)) ∧
    (escape_seq_char ctx desc (110 :: rest) = (10, [], rest)) ∧
    (escape_seq_char ctx desc (114 :: rest) = (13, [], rest)) ∧
    (escape_seq_char ctx desc (116 :: rest) = (9, [], rest)) ∧
    (escape_seq_char ctx desc (92 :: rest) = (92, [], rest)) ∧
    (escape_seq_char ctx desc (34 :: rest) = (34, [], rest)) ∧
    (∀ ds, ds.length = 4 → (∀ b ∈ ds, isHexDigitB b = true) →
      isUnicodeScalar (hexVal ds) = true →
      escape_seq_char ctx desc (117 :: (ds ++ rest)) = (hexVal ds, [], rest)) ∧
    (∀ ds, ds.length = 4 → (∀ b ∈ ds, isHexDigitB b = true) →
      isUnicodeScalar (hexVal ds) = false →
      escape_seq_char ctx desc (117 :: (ds ++ rest)) =
        (32, [ParseError.mk ctx desc [Expected.Description "unicode 4-digit hex code"]
          (substr_at rest 0)], rest)) ∧
    ((rest.takeWhile isHexDigitB).length < 4 →
      escape_seq_char ctx desc (117 :: rest) =
        (32, [ParseError.mk ctx desc [Expected.Description "unicode 4-digit hex code"]
          (substr_at rest 0)], rest)) ∧
    (∀ ds, ds.length = 8 → (∀ b ∈ ds, isHexDigitB b = true) →
      isUnicodeScalar (hexVal ds) = true →
      escape_seq_char ctx desc (85 :: (ds ++ rest)) = (hexVal ds, [], rest)) ∧
    (∀ ds, ds.length = 8 → (∀ b ∈ ds, isHexDigitB b = true) →
      isUnicodeScalar (hexVal ds) = false →
      escape_seq_char ctx desc (85 :: (ds ++ rest)) =
        (32, [ParseError.mk ctx desc [Expected.Description "unicode 8-digit hex code"]
          (substr_at rest 0)], rest)) ∧
    ((rest.takeWhile isHexDigitB).length < 8 →
      escape_seq_char ctx desc (85 :: rest) =
        (32, [ParseError.mk ctx desc [Expected.Description "unicode 8-digit hex code"]
          (substr_at rest 0)], rest)) ∧
    (∀ x, x ∉ ([98, 102, 110, 114, 116, 92, 34, 117, 85] : List Nat) →
      escape_seq_char ctx desc (x :: rest) =
        (32, [ParseError.mk ctx desc expected_escape_chars (substr_at (x :: rest) 0)],
          x :: rest)) := by
  refine ⟨rfl, rfl, rfl, rfl, rfl, rfl, rfl, ?_, ?_, ?_, ?_, ?_, ?_, ?_⟩
  · intro ds h1 h2 h3
    simp only [escape_seq_char, hexescape_exact 4 ds rest h1 h2, h3, if_true]
    simp
  · intro ds h1 h2 h3
    simp only [escape_seq_char, hexescape_exact 4 ds rest h1 h2, h3]
    simp
  · intro h
    simp only [escape_seq_char, hexescape_short 4 rest h]
    simp
  · intro ds h1 h2 h3
    simp only [escape_seq_char, hexescape_exact 8 ds rest h1 h2, h3, if_true]
    simp
  · intro ds h1 h2 h3
    simp only [escape_seq_char, hexescape_exact 8 ds rest h1 h2, h3]
    simp
  · intro h
    simp only [escape_seq_char, hexescape_short 8 rest h]
    simp
  · intro x hx
    simp only [List.mem_cons, List.not_mem_nil, or_false, not_or] at hx
    obtain ⟨h1, h2, h3, h4, h5, h6, h7, h8, h9⟩ := hx
    simp [escape_seq_char, h1, h2, h3, h4, h5, h6, h7, h8, h9]

/-- C9 witness: `c9_escape_decoding` at the concrete escape `A` (the hex
digits `0041`, bytes `48 48 52 49`), which decodes to `A` (code point 65)
with no diagnostic. -/
theorem c9_escape_decoding_witness :
    escape_seq_char [] "basic string" [117, 48, 48, 52, 49] = (65, [], []) := by
  have h := (c9_escape_decoding [] "basic string" []).2.2.2.2.2.2.2.1
    [48, 48, 52, 49] (by decide) (by decide) (by decide)
  simpa using h

/-! ## The basic-string body decoder, one code point at a time

Claim C10 says that in `parse_basic_string` every body code point that is
neither `basic-unescaped` nor the `\` of an escape is reported exactly once
and replaced by exactly one space at its position.  `basic_body_spec` below
restates the body decoder code-point by code-point, so that this replacement
discipline is visible in the definition itself: a `basic-unescaped` code
point is kept, a `\` is decoded by the same `escape_seq_char`, and any other
code point contributes exactly one diagnostic and exactly one space.
The theorem `c10_offending_codepoints` proves this restatement equal to the
run-at-a-time decoder `basic_char` of the source. -/

/-- Code-point-at-a-time restatement of the basic-string body decoder. -/
def basic_body_spec (ctx : List Nat) (desc : String) : Nat → List Nat → List Nat × List ParseError
  | 0, _ => ([], [])
  | _ + 1, [] => ([], [])
  | fuel + 1, b :: rest =>
    if basicUnescapedB b then
      (b :: (basic_body_spec ctx desc fuel rest).1, (basic_body_spec ctx desc fuel rest).2)
    else if b = 92 then
      ((escape_seq_char ctx desc rest).1 ::
          (basic_body_spec ctx desc fuel (escape_seq_char ctx desc rest).2.2).1,
        (escape_seq_char ctx desc rest).2.1 ++
          (basic_body_spec ctx desc fuel (escape_seq_char ctx desc rest).2.2).2)
    else
      (32 :: (basic_body_spec ctx desc fuel
          ((b :: rest).drop (substr_at (b :: rest) 0).length)).1,
        ParseError.mk ctx desc [] (substr_at (b :: rest) 0) ::
          (basic_body_spec ctx desc fuel
            ((b :: rest).drop (substr_at (b :: rest) 0).length)).2)

/-- The `basic_body_spec` with the canonical (always sufficient) fuel. -/
def basic_body_specW (ctx : List Nat) (desc : String) (s : List Nat) :
    List Nat × List ParseError :=
  basic_body_spec ctx desc s.length s

theorem basic_body_spec_nil (ctx : List Nat) (desc : String) (fuel : Nat) :
    basic_body_spec ctx desc fuel [] = ([], []) := by
  cases fuel <;> rfl

/-- The `hexescape` leaves the input unchanged or drops the `n` digits. -/
theorem hexescape_rest_cases (n : Nat) (input : List Nat) :
    (hexescape n input).2 = input ∨ (hexescape n input).2 = input.drop n := by
  simp only [hexescape]
  by_cases hd : (List.take n (List.takeWhile isHexDigitB input)).length = n
  · rw [if_pos hd]
    by_cases hs : isUnicodeScalar (hexVal (List.take n (List.takeWhile isHexDigitB input))) =
        true
    · rw [if_pos hs]
      right
      rfl
    · rw [if_neg hs]
      right
      rfl
  · rw [if_neg hd]
    left
    rfl

/-- The `hexescape` never produces a longer remaining input. -/
theorem hexescape_rest_le (n : Nat) (input : List Nat) :
    (hexescape n input).2.length ≤ input.length := by
  rcases hexescape_rest_cases n input with h | h
  · simp [h]
  · simp [h]

/-- The `escape_seq_char` never produces a longer remaining input. -/
theorem escape_seq_char_rest_le (ctx : List Nat) (desc : String) (t : List Nat) :
    (escape_seq_char ctx desc t).2.2.length ≤ t.length := by
  match t with
  | [] => simp [escape_seq_char]
  | id :: rest =>
    have h4 : (hexescape 4 rest).2.length ≤ rest.length := hexescape_rest_le 4 rest
    have h8 : (hexescape 8 rest).2.length ≤ rest.length := hexescape_rest_le 8 rest
    simp only [escape_seq_char]
    split_ifs
    · simp
    · simp
    · simp
    · simp
    · simp
    · rcases hh : hexescape 4 rest with ⟨o, r⟩
      rw [hh] at h4
      have hr : r.length ≤ rest.length := by simpa using h4
      cases o <;> simp <;> omega
    · rcases hh : hexescape 8 rest with ⟨o, r⟩
      rw [hh] at h8
      have hr : r.length ≤ rest.length := by simpa using h8
      cases o <;> simp <;> omega
    · simp
    · simp
    · simp

/-- A head surviving `dropWhile` fails the predicate. -/
theorem dropWhile_head?_false (p : Nat → Bool) (l : List Nat) (b : Nat)
    (h : (l.dropWhile p).head? = some b) : p b = false := by
  induction l with
  | nil => simp at h
  | cons x t ih =>
    rw [List.dropWhile_cons] at h
    by_cases hx : p x = true
    · simp [hx] at h
      exact ih h
    · simp [hx] at h
      obtain ⟨rfl, -⟩ := h
      simpa using hx

/-- The first code point of a nonempty input is itself nonempty. -/
theorem substr_at_zero_len_pos (s : List Nat) (h : s ≠ []) :
    1 ≤ (substr_at s 0).length := by
  unfold substr_at
  have hb : isCharBoundary s 0 = true := by simp [isCharBoundary]
  simp only [List.range_succ, List.range_zero, List.nil_append, List.reverse_cons,
    List.reverse_nil, List.find?, hb]
  have hlen : 1 ≤ s.length := by
    cases s
    · exact absurd rfl h
    · simp
  rcases hfind : (List.range' 1 (s.length - 1)).find? (fun i => isCharBoundary s i) with - | x
  · simp [List.length_take, List.length_drop]
    omega
  · have hx : x ∈ List.range' 1 (s.length - 1) := List.mem_of_find?_eq_some hfind
    have := List.mem_range'_1.mp hx
    simp [List.length_take, List.length_drop]
    omega

/-- The `escaped` at a byte other than `\`: report the code point, consume it,
substitute a space. -/
theorem escaped_not_escape (ctx : List Nat) (desc : String) (b : Nat) (t : List Nat)
    (h : b ≠ 92) :
    escaped ctx desc (b :: t) =
      (32, [ParseError.mk ctx desc [] (substr_at (b :: t) 0)],
        (b :: t).drop (substr_at (b :: t) 0).length) := by
  unfold escaped
  split
  · rename_i heq
    exact absurd (List.head_eq_of_cons_eq heq) h
  · rfl

/-- The `escaped` never produces a longer remaining input than the tail. -/
theorem escaped_rest_le (ctx : List Nat) (desc : String) (b : Nat) (t : List Nat) :
    (escaped ctx desc (b :: t)).2.2.length ≤ t.length := by
  by_cases h : b = 92
  · subst h
    simpa [escaped] using escape_seq_char_rest_le ctx desc t
  · rw [escaped_not_escape ctx desc b t h]
    have := substr_at_zero_len_pos (b :: t) (by simp)
    simp [List.length_drop]
    omega

/-- The `basic_body_spec` does not depend on the fuel, as long as the fuel covers
the input length (every step consumes at least one byte). -/
theorem basic_body_spec_fuel (ctx : List Nat) (desc : String) :
    ∀ f1 f2 s, s.length ≤ f1 → s.length ≤ f2 →
      basic_body_spec ctx desc f1 s = basic_body_spec ctx desc f2 s := by
  intro f1
  induction f1 with
  | zero =>
    intro f2 s h1 _
    have hs : s = [] := List.eq_nil_of_length_eq_zero (Nat.le_zero.mp h1)
    subst hs
    rw [basic_body_spec_nil, basic_body_spec_nil]
  | succ f1 ih =>
    intro f2 s h1 h2
    cases s with
    | nil => rw [basic_body_spec_nil, basic_body_spec_nil]
    | cons b t =>
      cases f2 with
      | zero => simp at h2
      | succ f2 =>
        have h1t : t.length ≤ f1 := by simpa using h1
        have h2t : t.length ≤ f2 := by simpa using h2
        rw [basic_body_spec, basic_body_spec]
        by_cases hb : basicUnescapedB b = true
        · rw [if_pos hb, if_pos hb, ih f2 t h1t h2t]
        · rw [if_neg hb, if_neg hb]
          by_cases h92 : b = 92
          · rw [if_pos h92, if_pos h92]
            have hle := escape_seq_char_rest_le ctx desc t
            rw [ih f2 _ (le_trans hle h1t) (le_trans hle h2t)]
          · rw [if_neg h92, if_neg h92]
            have hu := substr_at_zero_len_pos (b :: t) (by simp)
            have hle : ((b :: t).drop (substr_at (b :: t) 0).length).length ≤ t.length := by
              simp [List.length_drop]
              omega
            rw [ih f2 _ (le_trans hle h1t) (le_trans hle h2t)]

/-- Peeling a `basic-unescaped` run off the front of the spec-side decoder:
the run is kept verbatim and produces no diagnostics. -/
theorem basic_body_specW_append_run (ctx : List Nat) (desc : String)
    (run rest : List Nat) (h : ∀ b ∈ run, basicUnescapedB b = true) :
    basic_body_specW ctx desc (run ++ rest) =
      (run ++ (basic_body_specW ctx desc rest).1, (basic_body_specW ctx desc rest).2) := by
  induction run with
  | nil => simp [basic_body_specW]
  | cons b run ih =>
    have hb : basicUnescapedB b = true := h b (by simp)
    have hrun : ∀ x ∈ run, basicUnescapedB x = true := fun x hx => h x (by simp [hx])
    have hfold : basic_body_spec ctx desc (run ++ rest).length (run ++ rest) =
        basic_body_specW ctx desc (run ++ rest) := rfl
    simp only [basic_body_specW, List.cons_append, List.length_cons]
    rw [basic_body_spec, if_pos hb]
    rw [hfold, ih hrun]
    simp [basic_body_specW]

/-- The run-at-a-time loop of `basic_char` agrees with the
code-point-at-a-time `basic_body_spec`, for any accumulator, whenever the
input starts at a non-`basic-unescaped` position (which the call sites
guarantee via `dropWhile`). -/
theorem basic_char_loop_spec (ctx : List Nat) (desc : String) :
    ∀ fuel input acc, input.length ≤ fuel →
      (∀ b, input.head? = some b → basicUnescapedB b = false) →
      (basic_char_loop ctx desc fuel acc input).1.toList =
          acc.toList ++ (basic_body_specW ctx desc input).1 ∧
        (basic_char_loop ctx desc fuel acc input).2 =
          (basic_body_specW ctx desc input).2 := by
  intro fuel
  induction fuel with
  | zero =>
    intro input acc h1 _
    have hs : input = [] := List.eq_nil_of_length_eq_zero (Nat.le_zero.mp h1)
    subst hs
    simp [basic_char_loop, basic_body_specW, basic_body_spec_nil]
  | succ fuel ih =>
    intro input acc h1 hh
    cases input with
    | nil => simp [basic_char_loop, basic_body_specW, basic_body_spec_nil]
    | cons b t =>
      have hb : basicUnescapedB b = false := hh b rfl
      have ht : t.length ≤ fuel := by simpa using h1
      rcases he : escaped ctx desc (b :: t) with ⟨c, errs1, rest1⟩
      have hr1 : rest1.length ≤ t.length := by
        have := escaped_rest_le ctx desc b t
        rw [he] at this
        simpa using this
      have hrest2 : (rest1.dropWhile basicUnescapedB).length ≤ fuel :=
        le_trans (le_trans ((List.dropWhile_sublist basicUnescapedB).length_le) hr1) ht
      have hhead2 : ∀ x, (rest1.dropWhile basicUnescapedB).head? = some x →
          basicUnescapedB x = false :=
        fun x hx => dropWhile_head?_false basicUnescapedB rest1 x hx
      obtain ⟨ih1, ih2⟩ := ih (rest1.dropWhile basicUnescapedB)
        ((acc.push c).pushList (rest1.takeWhile basicUnescapedB)) hrest2 hhead2
      have hsplit : rest1 = rest1.takeWhile basicUnescapedB ++
          rest1.dropWhile basicUnescapedB :=
        (List.takeWhile_append_dropWhile basicUnescapedB rest1).symm
      have hspecR : basic_body_specW ctx desc rest1 =
          (rest1.takeWhile basicUnescapedB ++
              (basic_body_specW ctx desc (rest1.dropWhile basicUnescapedB)).1,
            (basic_body_specW ctx desc (rest1.dropWhile basicUnescapedB)).2) := by
        conv in basic_body_specW ctx desc rest1 => rw [hsplit]
        exact basic_body_specW_append_run ctx desc _ _
          (fun x hx => List.mem_takeWhile_imp hx)
      have hloop : basic_char_loop ctx desc (fuel + 1) acc (b :: t) =
          ((basic_char_loop ctx desc fuel
              ((acc.push c).pushList (rest1.takeWhile basicUnescapedB))
              (rest1.dropWhile basicUnescapedB)).1,
            errs1 ++ (basic_char_loop ctx desc fuel
              ((acc.push c).pushList (rest1.takeWhile basicUnescapedB))
              (rest1.dropWhile basicUnescapedB)).2) := by
        rw [basic_char_loop, he]
      have hspecL : basic_body_specW ctx desc (b :: t) =
          (c :: (basic_body_specW ctx desc rest1).1,
            errs1 ++ (basic_body_specW ctx desc rest1).2) := by
        simp only [basic_body_specW, List.length_cons]
        rw [basic_body_spec, if_neg (by simp [hb])]
        by_cases h92 : b = 92
        · subst h92
          have heq : escape_seq_char ctx desc t = (c, errs1, rest1) := by
            simpa [escaped] using he
          rw [if_pos rfl, heq]
          have hfold : basic_body_spec ctx desc t.length rest1 =
              basic_body_specW ctx desc rest1 :=
            basic_body_spec_fuel ctx desc t.length rest1.length rest1 hr1 le_rfl
          rw [hfold]
          rfl
        · rw [if_neg h92]
          have heq := escaped_not_escape ctx desc b t h92
          rw [he] at heq
          have hc : (32 : Nat) = c := congrArg (·.1) heq.symm
          have herrs : [ParseError.mk ctx desc [] (substr_at (b :: t) 0)] = errs1 :=
            congrArg (·.2.1) heq.symm
          have hrest : (b :: t).drop (substr_at (b :: t) 0).length = rest1 :=
            congrArg (·.2.2) heq.symm
          rw [hrest]
          have hfold : basic_body_spec ctx desc t.length rest1 =
              basic_body_specW ctx desc rest1 :=
            basic_body_spec_fuel ctx desc t.length rest1.length rest1 hr1 le_rfl
          rw [hfold, ← hc, ← herrs]
          rfl
      constructor
      · rw [hloop]
        simp only []
        rw [ih1, hspecL]
        simp only []
        rw [hspecR]
        simp [CowStr.push, CowStr.pushList, CowStr.toList]
      · rw [hloop]
        simp only []
        rw [ih2, hspecL]
        simp only []
        rw [hspecR]

/-- The `basic_char` agrees with the code-point-at-a-time decoder on any body. -/
theorem basic_char_eq_spec (ctx : List Nat) (desc : String) (s : List Nat) :
    (basic_char ctx desc s).1.toList = (basic_body_specW ctx desc s).1 ∧
      (basic_char ctx desc s).2 = (basic_body_specW ctx desc s).2 := by
  unfold basic_char
  obtain ⟨h1, h2⟩ := basic_char_loop_spec ctx desc s.length
    (s.dropWhile basicUnescapedB) (CowStr.borrowed (s.takeWhile basicUnescapedB))
    ((List.dropWhile_sublist basicUnescapedB).length_le)
    (fun x hx => dropWhile_head?_false basicUnescapedB s x hx)
  have hsplit : s = s.takeWhile basicUnescapedB ++ s.dropWhile basicUnescapedB :=
    (List.takeWhile_append_dropWhile basicUnescapedB s).symm
  have hspec : basic_body_specW ctx desc s =
      (s.takeWhile basicUnescapedB ++
          (basic_body_specW ctx desc (s.dropWhile basicUnescapedB)).1,
        (basic_body_specW ctx desc (s.dropWhile basicUnescapedB)).2) := by
    conv in basic_body_specW ctx desc s => rw [hsplit]
    exact basic_body_specW_append_run ctx desc _ _
      (fun x hx => List.mem_takeWhile_imp hx)
  constructor
  · rw [h1, hspec]
    simp [CowStr.toList]
  · rw [h2, hspec]

/-- C10: in `parse_basic_string`, the decoded value and the diagnostics are
exactly those of the code-point-at-a-time decoder `basic_body_spec` applied
to the delimiter-stripped body: every body code point that is neither
`basic-unescaped` nor the `\` of an escape yields exactly one diagnostic and
is replaced by exactly one space (`U+0020`) at its position in the decoded
value, after the delimiter diagnostics. -/
theorem c10_offending_codepoints (raw : List Nat) :
    (parse_basic_string raw).1.toList =
        (basic_body_specW raw "basic string" (strip_basic_delims raw).1).1 ∧
      (parse_basic_string raw).2 =
        (strip_basic_delims raw).2 ++
          (basic_body_specW raw "basic string" (strip_basic_delims raw).1).2 := by
  obtain ⟨h1, h2⟩ := basic_char_eq_spec raw "basic string" (strip_basic_delims raw).1
  constructor
  · simpa [parse_basic_string] using h1
  · simpa [parse_basic_string] using h2

end Toml
